import Mathlib

/-!
Shallow embedding of the Ledger Analytics and Query Engine of the
my-household-ledger application (src/src/App.js), together with proofs of
the specified properties of its four components: the Aggregation Engine
(the summary useMemo of DashboardTab), the Trend Engine (trendData of
DashboardTab), the Filter/Sort Engine (filteredAndSortedEntries of
HistoryTab) and the Tabular Exporter (handleDownloadCsv of HistoryTab).

Modelling conventions:
* Amounts are whole currency units (the data model fixes minor-unit-free
  whole amounts), so JavaScript number arithmetic on them is exact and is
  modelled by Int.
* Dates are modelled at day granularity (year, month, day); JavaScript
  Date comparison on such dates is the lexicographic order on the triple.
* JavaScript objects keyed by the non-integer-like strings used here
  (category labels from the fixed Korean label lists, zero-padded
  "YYYY-MM" month keys) enumerate their keys in insertion order, and
  assigning to an existing key keeps its position; they are modelled by
  insertion-ordered association lists.
* Array.prototype.sort with a consistent comparator is a stable sort
  (ECMAScript 2019); any stable sort for the same total preorder produces
  the same output list, so it is modelled by a stable insertion sort.
-/

namespace Household

/-- A calendar date at day granularity, as used by every comparison the
engine performs (`new Date(entry.date)` values compared numerically). -/
structure Date where
  year : Int
  month : Nat
  day : Nat
deriving DecidableEq

/-- Numeric comparison of JavaScript Date values at day granularity:
lexicographic on (year, month, day). -/
def Date.le (a b : Date) : Bool :=
  decide (a.year < b.year) ||
    (decide (a.year = b.year) &&
      (decide (a.month < b.month) ||
        (decide (a.month = b.month) && decide (a.day ≤ b.day))))

/-- One ledger entry (a Firestore document of the entries collection).
`type` is stored as a free string; the input layer writes "income" or
"expense", but the engines branch only on equality with "income".
`paymentMethod`, `memo` and `recordedBy` may be absent (undefined). -/
structure Entry where
  id : String
  date : Date
  type : String
  amount : Int
  category : String
  paymentMethod : Option String
  memo : Option String
  recordedBy : Option String
deriving DecidableEq

/-- The "YYYY-MM" month key of a date (the zero-padded key strings of the
source are in bijection with these pairs). -/
def monthKey (d : Date) : Int × Nat :=
  (d.year, d.month)

/-- Stable insertion: places `x` before the first element `y` with
`le x y = true`. -/
def orderedInsert (le : α → α → Bool) (x : α) : List α → List α
  | [] => [x]
  | y :: ys => if le x y then x :: y :: ys else y :: orderedInsert le x ys

/-- Stable sort modelling Array.prototype.sort with a consistent
comparator `c`, where `le a b` means `c(a, b) <= 0`. -/
def insertionSort (le : α → α → Bool) : List α → List α
  | [] => []
  | x :: xs => orderedInsert le x (insertionSort le xs)

/-- `new Date(year, month, 0).getDate()`: number of days in a month. -/
def daysInMonth (y : Int) (m : Nat) : Nat :=
  if m = 2 then (if (y % 4 = 0 ∧ y % 100 ≠ 0) ∨ y % 400 = 0 then 29 else 28)
  else if m = 4 ∨ m = 6 ∨ m = 9 ∨ m = 11 then 30 else 31

/-- The inclusive date range check of DashboardTab's filteredEntries:
`entryDate >= start && entryDate <= end` for `start` the first day of the
month and `end` the last day of the month (at day granularity). -/
def inMonthRange (m : Int × Nat) (d : Date) : Bool :=
  Date.le ⟨m.1, m.2, 1⟩ d && Date.le d ⟨m.1, m.2, daysInMonth m.1 m.2⟩

/-- DashboardTab filteredEntries: entries of the current month, sorted by
date descending (comparator `dateB - dateA`, a stable sort). -/
def filteredEntries (entries : List Entry) (currentMonth : Int × Nat) : List Entry :=
  insertionSort (fun a b => Date.le b.date a.date)
    (entries.filter (fun e => inMonthRange currentMonth e.date))

/-- The record returned by DashboardTab's summary useMemo. -/
structure Summary where
  totalIncome : Int
  totalExpense : Int
  netBalance : Int
  categoryExpenses : List (String × Int)
deriving DecidableEq

/-- `categories[entry.category] = (categories[entry.category] || 0) + entry.amount`
on an insertion-ordered association list: an existing key is updated in
place, a new key is appended. -/
def updateCategory : List (String × Int) → String → Int → List (String × Int)
  | [], c, a => [(c, a)]
  | (c0, v) :: rest, c, a =>
    if c0 = c then (c0, v + a) :: rest else (c0, v) :: updateCategory rest c a

/-- One step of the forEach loop of the summary useMemo. -/
def summaryStep (acc : Int × Int × List (String × Int)) (e : Entry) :
    Int × Int × List (String × Int) :=
  if e.type = "income" then (acc.1 + e.amount, acc.2.1, acc.2.2)
  else (acc.1, acc.2.1 + e.amount, updateCategory acc.2.2 e.category e.amount)

/-- The forEach accumulation of the summary useMemo, starting from
income = 0, expense = 0, categories = empty. -/
def summaryFold (l : List Entry) : Int × Int × List (String × Int) :=
  l.foldl summaryStep (0, 0, [])

/-- DashboardTab summary useMemo: totals over the month-filtered entries,
with `Object.entries(categories).sort(([, a], [, b]) => b - a)` modelled
as a stable sort by total descending over the insertion-ordered entries. -/
def summary (entries : List Entry) (currentMonth : Int × Nat) : Summary :=
  let acc := summaryFold (filteredEntries entries currentMonth)
  ⟨acc.1, acc.2.1, acc.1 - acc.2.1,
    insertionSort (fun p q => decide (q.2 ≤ p.2)) acc.2.2⟩

/-- One bucket of trendData: `{ income, expense, month }` where `month`
models the numeric part of the display label `` `${date.getMonth() + 1}월` ``
(only the month-of-year; the year is not part of the label). -/
structure TrendBucket where
  income : Int
  expense : Int
  month : Nat
deriving DecidableEq

/-- The linear month index 12 * year + (month - 1) of a (year, month)
pair; two months are in chronological order iff their indices are. -/
def monthIndex (ym : Int × Nat) : Int :=
  12 * ym.1 + (ym.2 : Int) - 1

/-- `new Date(anchor.year, anchor.monthZero - i, 1)`: the calendar month
`i` months before the anchor, with JavaScript Date month normalization. -/
def subMonths (anchor : Int × Nat) (i : Nat) : Int × Nat :=
  ((monthIndex anchor - (i : Int)).ediv 12,
    ((monthIndex anchor - (i : Int)).emod 12).toNat + 1)

/-- The initialization loop of trendData: buckets for the window months,
inserted most recent first (i = 0 is the anchor month); the source
hardcodes a window of 6 anchored at the current month, modelled here by
the parameters `n` and `anchor`. -/
def initTrend (anchor : Int × Nat) (n : Nat) : List ((Int × Nat) × TrendBucket) :=
  (List.range n).map (fun i => (subMonths anchor i, ⟨0, 0, (subMonths anchor i).2⟩))

/-- `monthlyData[monthKey].income += amount` or `.expense += amount`
according to `entry.type === 'income'`. -/
def applyEntry (b : TrendBucket) (e : Entry) : TrendBucket :=
  if e.type = "income" then ⟨b.income + e.amount, b.expense, b.month⟩
  else ⟨b.income, b.expense + e.amount, b.month⟩

/-- One step of the entries.forEach loop of trendData: the bucket whose
key is the month of the entry, if any, absorbs the entry; the window keys are
pairwise distinct, so updating every matching key models the object
assignment exactly. -/
def trendUpdate (assoc : List ((Int × Nat) × TrendBucket)) (e : Entry) :
    List ((Int × Nat) × TrendBucket) :=
  assoc.map (fun p => if p.1 = monthKey e.date then (p.1, applyEntry p.2 e) else p)

/-- DashboardTab trendData. The final sort's comparator parses the display
label back into numbers: `"3월"` yields the single number 3 (the slice
before the suffix contains no "-"), so `yearA` is the month-of-year and
`monthA` is NaN; distinct labels compare by month-of-year and equal labels
fall into the NaN branch, which a stable sort treats as "keep order".
The buckets therefore end up stably sorted by month-of-year ascending.
The association keys (dropped by Object.values in the source) are kept so
that the calendar month of each bucket stays identifiable. -/
def trendData (entries : List Entry) (n : Nat) (anchor : Int × Nat) :
    List ((Int × Nat) × TrendBucket) :=
  insertionSort (fun p q => decide (p.2.month ≤ q.2.month))
    (entries.foldl trendUpdate (initTrend anchor n))

/-- The HistoryTab filter state; `none` models the "all" value. -/
structure Filter where
  month : Option (Int × Nat)
  type : Option String
  category : Option String
  paymentMethod : Option String
deriving DecidableEq

/-- The conjunction of the four optional predicate checks of
filteredAndSortedEntries; a `paymentMethod` filter compares with strict
equality, so an entry without the field (undefined) never matches. -/
def matchesFilter (f : Filter) (e : Entry) : Bool :=
  (match f.month with
    | none => true
    | some m => decide (monthKey e.date = m)) &&
  (match f.type with
    | none => true
    | some t => decide (e.type = t)) &&
  (match f.category with
    | none => true
    | some c => decide (e.category = c)) &&
  (match f.paymentMethod with
    | none => true
    | some pm => decide (e.paymentMethod = some pm))

/-- HistoryTab filteredAndSortedEntries: filter by the conjunction of the
optional predicates, then sort by date descending (stable). -/
def filteredAndSortedEntries (entries : List Entry) (f : Filter) : List Entry :=
  insertionSort (fun a b => Date.le b.date a.date)
    (entries.filter (matchesFilter f))

/-- `memo.replace(/"/g, String.fromCharCode(34, 34))`: every double quote
doubled, all other characters unchanged. -/
def escapeQuotes (s : String) : String :=
  ⟨s.data.foldr (fun c acc => if c = '"' then '"' :: '"' :: acc else c :: acc) []⟩

/-- Wrap a field in double quotes. -/
def quoteField (s : String) : String :=
  "\"" ++ s ++ "\""

/-- `date.toLocaleDateString(koKR)`: the Korean locale date display,
"YYYY. M. D.". -/
def formatDateKo (d : Date) : String :=
  toString d.year ++ ". " ++ toString d.month ++ ". " ++ toString d.day ++ "."

/-- `entry.recordedBy?.substring(0, 8) || empty`: the truncated recorder
display, empty when absent. -/
def displayRecorder : Option String → String
  | none => ""
  | some s => s.take 8

/-- One data row of handleDownloadCsv, as the list of its seven emitted
column strings: only the memo field is quote-escaped, the amount is
emitted bare (unquoted), absent optional fields become empty strings. -/
def csvRow (e : Entry) : List String :=
  [quoteField (formatDateKo e.date),
   quoteField (if e.type = "income" then "수입" else "지출"),
   quoteField e.category,
   toString e.amount,
   quoteField (match e.paymentMethod with | none => "" | some pm => pm),
   quoteField (match e.memo with | none => "" | some m => escapeQuotes m),
   quoteField (displayRecorder e.recordedBy)]

/-- The quoted header row of handleDownloadCsv. -/
def csvHeaders : List String :=
  ["날짜", "유형", "카테고리", "금액", "결제수단", "메모", "기록자"]

/-- The full document text: BOM prefix, then the header row and one row
per entry, rows joined by newlines and fields by commas. -/
def csvString (l : List Entry) : String :=
  "\uFEFF" ++ String.intercalate "\n"
    (String.intercalate "," (csvHeaders.map quoteField)
      :: l.map (fun e => String.intercalate "," (csvRow e)))

/-- handleDownloadCsv: with an empty filtered list the export is refused
with the user-visible message and no document is built; otherwise the
document is produced. -/
def handleDownloadCsv (l : List Entry) : Except String String :=
  if l.length = 0 then Except.error "다운로드할 내역이 없습니다."
  else Except.ok (csvString l)

/-! ## Derived vocabulary used to state the properties -/

/-- Sum of the amounts of the entries whose type is exactly "income"
(the only entries either engine ever counts as income). -/
def incomeSum (l : List Entry) : Int :=
  ((l.filter (fun e => decide (e.type = "income"))).map Entry.amount).sum

/-- Sum of the amounts of the entries whose type is anything other than
"income" (the engines treat all of these as expenses). -/
def expenseSum (l : List Entry) : Int :=
  ((l.filter (fun e => !(decide (e.type = "income")))).map Entry.amount).sum

/-- Sum of the amounts of the non-income entries of a given category. -/
def catExpenseSum (l : List Entry) (c : String) : Int :=
  ((l.filter (fun e => !(decide (e.type = "income")) && decide (e.category = c))).map
    Entry.amount).sum

/-- Total recorded for a category in an association list of
(category, total) pairs. -/
def catSum (cats : List (String × Int)) (c : String) : Int :=
  ((cats.filter (fun p => decide (p.1 = c))).map Prod.snd).sum

/-- Append a value to a list of already-seen values unless present. -/
def addFirst (ks : List String) (c : String) : List String :=
  if c ∈ ks then ks else ks ++ [c]

/-- The order in which distinct values first occur in a stream; this is
the "first-encountered category" order the specification uses for the
tie-break of the category breakdown. -/
def firstEncounter (cs : List String) : List String :=
  cs.foldl addFirst []

/-! ## Helper lemmas about the stable sort -/

theorem mem_orderedInsert {le : α → α → Bool} {x z : α} {l : List α} :
    z ∈ orderedInsert le x l ↔ z = x ∨ z ∈ l := by
  induction l with
  | nil => simp [orderedInsert]
  | cons y ys ih =>
    simp only [orderedInsert]
    split
    · simp [List.mem_cons]
    · simp only [List.mem_cons, ih]
      tauto

theorem orderedInsert_perm (le : α → α → Bool) (x : α) (l : List α) :
    List.Perm (orderedInsert le x l) (x :: l) := by
  induction l with
  | nil => simp [orderedInsert]
  | cons y ys ih =>
    simp only [orderedInsert]
    split
    · exact List.Perm.refl _
    · exact (ih.cons y).trans (List.Perm.swap x y ys)

theorem insertionSort_perm (le : α → α → Bool) (l : List α) :
    List.Perm (insertionSort le l) l := by
  induction l with
  | nil => exact List.Perm.refl _
  | cons x xs ih =>
    exact (orderedInsert_perm le x (insertionSort le xs)).trans (ih.cons x)

theorem pairwise_orderedInsert (le : α → α → Bool)
    (htrans : ∀ a b c, le a b = true → le b c = true → le a c = true)
    (htot : ∀ a b, le a b = true ∨ le b a = true)
    (x : α) {l : List α} (h : l.Pairwise (fun a b => le a b = true)) :
    (orderedInsert le x l).Pairwise (fun a b => le a b = true) := by
  induction l with
  | nil => simp [orderedInsert]
  | cons y ys ih =>
    simp only [orderedInsert]
    rcases List.pairwise_cons.mp h with ⟨hy, hys⟩
    split
    · rename_i hxy
      refine List.pairwise_cons.mpr ⟨?_, h⟩
      intro z hz
      rcases List.mem_cons.mp hz with rfl | hz
      · exact hxy
      · exact htrans x y z hxy (hy z hz)
    · rename_i hxy
      refine List.pairwise_cons.mpr ⟨?_, ih hys⟩
      intro z hz
      rcases mem_orderedInsert.mp hz with rfl | hz
      · rcases htot y z with h1 | h1
        · exact h1
        · exact absurd h1 hxy
      · exact hy z hz

theorem pairwise_insertionSort (le : α → α → Bool)
    (htrans : ∀ a b c, le a b = true → le b c = true → le a c = true)
    (htot : ∀ a b, le a b = true ∨ le b a = true) (l : List α) :
    (insertionSort le l).Pairwise (fun a b => le a b = true) := by
  induction l with
  | nil => simp [insertionSort]
  | cons x xs ih => exact pairwise_orderedInsert le htrans htot x ih

theorem filter_orderedInsert_neg (le : α → α → Bool) (p : α → Bool) {x : α}
    (hpx : p x = false) (l : List α) :
    (orderedInsert le x l).filter p = l.filter p := by
  induction l with
  | nil => simp [orderedInsert, hpx]
  | cons y ys ih =>
    simp only [orderedInsert]
    split
    · simp [List.filter_cons, hpx]
    · simp [List.filter_cons, ih]

theorem filter_orderedInsert_pos (le : α → α → Bool) (p : α → Bool) {x : α}
    (hpx : p x = true) (l : List α)
    (h : ∀ y ∈ l, p y = true → le x y = true) :
    (orderedInsert le x l).filter p = x :: l.filter p := by
  induction l with
  | nil => simp [orderedInsert, hpx]
  | cons y ys ih =>
    simp only [orderedInsert]
    split
    · simp [List.filter_cons, hpx]
    · rename_i hxy
      have hpy : p y = false := by
        cases hq : p y with
        | false => rfl
        | true => exact absurd (h y (List.mem_cons_self y ys) hq) hxy
      have ih2 := ih (fun z hz hpz => h z (List.mem_cons_of_mem y hz) hpz)
      simp [List.filter_cons, hpy, ih2]

theorem filter_insertionSort (le : α → α → Bool) (p : α → Bool)
    (hcompat : ∀ x y, p x = true → p y = true → le x y = true) (l : List α) :
    (insertionSort le l).filter p = l.filter p := by
  induction l with
  | nil => rfl
  | cons x xs ih =>
    simp only [insertionSort]
    cases hx : p x with
    | false =>
      rw [filter_orderedInsert_neg le p hx, ih, List.filter_cons, hx]
      simp
    | true =>
      rw [filter_orderedInsert_pos le p hx _ (fun y hy hpy => hcompat x y hx hpy), ih,
        List.filter_cons, hx]
      simp

theorem Date.le_refl (d : Date) : Date.le d d = true := by
  simp [Date.le]

theorem Date.le_trans {a b c : Date} (h1 : Date.le a b = true)
    (h2 : Date.le b c = true) : Date.le a c = true := by
  simp only [Date.le, Bool.or_eq_true, Bool.and_eq_true, decide_eq_true_eq] at h1 h2 ⊢
  omega

theorem Date.le_total (a b : Date) : Date.le a b = true ∨ Date.le b a = true := by
  simp only [Date.le, Bool.or_eq_true, Bool.and_eq_true, decide_eq_true_eq]
  omega

/-! ## Helper lemmas about the aggregation folds -/

theorem incomeSum_cons (e : Entry) (l : List Entry) :
    incomeSum (e :: l) = (if e.type = "income" then e.amount else 0) + incomeSum l := by
  by_cases h : e.type = "income" <;> simp [incomeSum, List.filter_cons, h]

theorem expenseSum_cons (e : Entry) (l : List Entry) :
    expenseSum (e :: l) = (if e.type = "income" then 0 else e.amount) + expenseSum l := by
  by_cases h : e.type = "income" <;> simp [expenseSum, List.filter_cons, h]

theorem catExpenseSum_cons (e : Entry) (l : List Entry) (c : String) :
    catExpenseSum (e :: l) c =
      (if e.type = "income" then 0 else if e.category = c then e.amount else 0) +
        catExpenseSum l c := by
  by_cases h1 : e.type = "income" <;> by_cases h2 : e.category = c <;>
    simp [catExpenseSum, List.filter_cons, h1, h2]

theorem catSum_cons (c0 : String) (v : Int) (rest : List (String × Int)) (c : String) :
    catSum ((c0, v) :: rest) c = (if c0 = c then v else 0) + catSum rest c := by
  by_cases h : c0 = c <;> simp [catSum, List.filter_cons, h]

theorem updateCategory_map_snd_sum (cats : List (String × Int)) (c : String) (a : Int) :
    ((updateCategory cats c a).map Prod.snd).sum = (cats.map Prod.snd).sum + a := by
  induction cats with
  | nil => simp [updateCategory]
  | cons p rest ih =>
    obtain ⟨c0, v⟩ := p
    simp only [updateCategory]
    split
    · simp only [List.map_cons, List.sum_cons]
      ring
    · simp only [List.map_cons, List.sum_cons, ih]
      ring

theorem updateCategory_catSum (cats : List (String × Int)) (c c1 : String) (a : Int) :
    catSum (updateCategory cats c a) c1 =
      catSum cats c1 + (if c = c1 then a else 0) := by
  induction cats with
  | nil =>
    by_cases h : c = c1 <;> simp [updateCategory, catSum, List.filter_cons, h]
  | cons p rest ih =>
    obtain ⟨c0, v⟩ := p
    simp only [updateCategory]
    split
    · rename_i h0
      subst h0
      rw [catSum_cons, catSum_cons]
      by_cases h : c0 = c1 <;> simp [h] <;> ring
    · rw [catSum_cons, catSum_cons, ih]
      ring

theorem updateCategory_map_fst (cats : List (String × Int)) (c : String) (a : Int) :
    (updateCategory cats c a).map Prod.fst = addFirst (cats.map Prod.fst) c := by
  induction cats with
  | nil => simp [updateCategory, addFirst]
  | cons p rest ih =>
    obtain ⟨c0, v⟩ := p
    simp only [updateCategory]
    split
    · rename_i h0
      subst h0
      simp [addFirst, List.mem_cons]
    · rename_i h0
      have hne : ¬ c = c0 := fun h => h0 h.symm
      by_cases hmem : c ∈ rest.map Prod.fst <;>
        simp [addFirst, List.mem_cons, hne, hmem, ih]

theorem foldl_summaryStep_income (l : List Entry) (acc : Int × Int × List (String × Int)) :
    (l.foldl summaryStep acc).1 = acc.1 + incomeSum l := by
  induction l generalizing acc with
  | nil => simp [incomeSum]
  | cons e rest ih =>
    rw [List.foldl_cons, ih, incomeSum_cons]
    by_cases h : e.type = "income" <;> simp [summaryStep, h] <;> ring

theorem foldl_summaryStep_expense (l : List Entry) (acc : Int × Int × List (String × Int)) :
    (l.foldl summaryStep acc).2.1 = acc.2.1 + expenseSum l := by
  induction l generalizing acc with
  | nil => simp [expenseSum]
  | cons e rest ih =>
    rw [List.foldl_cons, ih, expenseSum_cons]
    by_cases h : e.type = "income" <;> simp [summaryStep, h] <;> ring

theorem foldl_summaryStep_cats_sum (l : List Entry) (acc : Int × Int × List (String × Int)) :
    (((l.foldl summaryStep acc).2.2).map Prod.snd).sum =
      ((acc.2.2.map Prod.snd).sum) + expenseSum l := by
  induction l generalizing acc with
  | nil => simp [expenseSum]
  | cons e rest ih =>
    rw [List.foldl_cons, ih, expenseSum_cons]
    by_cases h : e.type = "income" <;>
      simp [summaryStep, h, updateCategory_map_snd_sum] <;> ring

theorem foldl_summaryStep_catSum (l : List Entry) (acc : Int × Int × List (String × Int))
    (c : String) :
    catSum ((l.foldl summaryStep acc).2.2) c = catSum acc.2.2 c + catExpenseSum l c := by
  induction l generalizing acc with
  | nil => simp [catExpenseSum]
  | cons e rest ih =>
    rw [List.foldl_cons, ih, catExpenseSum_cons]
    by_cases h : e.type = "income"
    · simp [summaryStep, h]
    · by_cases h2 : e.category = c <;>
        simp [summaryStep, h, h2, updateCategory_catSum] <;> ring

theorem foldl_summaryStep_map_fst (l : List Entry) (acc : Int × Int × List (String × Int)) :
    ((l.foldl summaryStep acc).2.2).map Prod.fst =
      ((l.filter (fun e => !(decide (e.type = "income")))).map Entry.category).foldl
        addFirst (acc.2.2.map Prod.fst) := by
  induction l generalizing acc with
  | nil => simp
  | cons e rest ih =>
    rw [List.foldl_cons, ih]
    by_cases h : e.type = "income" <;>
      simp [summaryStep, h, List.filter_cons, updateCategory_map_fst]

theorem foldl_trendUpdate_eq (l : List Entry) (assoc : List ((Int × Nat) × TrendBucket)) :
    l.foldl trendUpdate assoc =
      assoc.map (fun p =>
        (p.1, (l.filter (fun e => decide (monthKey e.date = p.1))).foldl applyEntry p.2)) := by
  induction l generalizing assoc with
  | nil =>
    simp
  | cons e rest ih =>
    rw [List.foldl_cons, ih]
    simp only [trendUpdate, List.map_map]
    refine List.map_congr_left (fun p _ => ?_)
    by_cases hk : p.1 = monthKey e.date
    · simp [Function.comp, hk, List.filter_cons, List.foldl_cons]
    · have hk2 : ¬ monthKey e.date = p.1 := fun h => hk h.symm
      simp [Function.comp, hk, hk2, List.filter_cons]

theorem foldl_applyEntry_totals (l : List Entry) (b : TrendBucket) :
    (l.foldl applyEntry b).income = b.income + incomeSum l ∧
    (l.foldl applyEntry b).expense = b.expense + expenseSum l := by
  induction l generalizing b with
  | nil => simp [incomeSum, expenseSum]
  | cons e rest ih =>
    rw [List.foldl_cons]
    rcases ih (applyEntry b e) with ⟨h1, h2⟩
    rw [incomeSum_cons, expenseSum_cons]
    by_cases h : e.type = "income" <;>
      simp [applyEntry, h] at h1 h2 ⊢ <;> rw [h1, h2] <;> constructor <;> ring

theorem mem_initTrend {anchor : Int × Nat} {n : Nat} {k : Int × Nat} {b : TrendBucket}
    (h : (k, b) ∈ initTrend anchor n) : b.income = 0 ∧ b.expense = 0 := by
  rcases List.mem_map.mp h with ⟨i, _, hi⟩
  rcases Prod.mk.injEq .. ▸ hi with ⟨h1, h2⟩
  cases h2
  exact ⟨rfl, rfl⟩

/-! ## Claim theorems -/

/-- C4: for every entry collection and month, the netBalance of the
summary equals totalIncome minus totalExpense, and the value can be
negative (witnessed by a one-expense collection). -/
theorem summary_netBalance_eq_income_sub_expense
    (entries : List Entry) (m : Int × Nat) :
    (summary entries m).netBalance =
      (summary entries m).totalIncome - (summary entries m).totalExpense ∧
    (summary [⟨"1", ⟨2024, 3, 5⟩, "expense", 100, "식비", none, none, none⟩]
      ((2024 : Int), 3)).netBalance < 0 := by
  constructor
  · rfl
  · decide

/-- C9: invoking the export with an empty filtered sequence refuses with
the user-visible message and produces no document (not even a header-only
one). -/
theorem export_empty_refused :
    handleDownloadCsv [] = Except.error "다운로드할 내역이 없습니다." ∧
    (handleDownloadCsv []).isOk = false := by
  exact ⟨rfl, rfl⟩

/-- C1 (code bug evidence): with the hardcoded window size 6 and an
anchor of 2024-03, even on the empty collection the trend buckets come
out ordered by month-of-year parsed from the display label —
[2024-01, 2024-02, 2024-03, 2023-10, 2023-11, 2023-12] — which is not
chronologically ascending by the (year, month) key. -/
theorem trend_label_sort_not_chronological :
    ((trendData [] 6 ((2024 : Int), 3)).map Prod.fst =
      [((2024 : Int), 1), (2024, 2), (2024, 3), (2023, 10), (2023, 11), (2023, 12)]) ∧
    ¬ ((trendData [] 6 ((2024 : Int), 3)).map Prod.fst).Pairwise
        (fun a b => monthIndex a ≤ monthIndex b) := by
  have h : (trendData [] 6 ((2024 : Int), 3)).map Prod.fst =
      [((2024 : Int), 1), (2024, 2), (2024, 3), (2023, 10), (2023, 11), (2023, 12)] := by
    decide
  refine ⟨h, ?_⟩
  rw [h]
  decide

/-- C2 counterexample: a double quote inside the category field is not
escaped by doubling — the emitted field for category a"b is "a"b", not
the doubled-quote form "a""b" that escaping every textual field would
produce. -/
theorem csv_category_quote_unescaped :
    ((csvRow ⟨"e1", ⟨2024, 3, 5⟩, "expense", 1000, "a\"b", none, none, none⟩).get? 2 =
      some (quoteField "a\"b")) ∧
    quoteField "a\"b" ≠ quoteField (escapeQuotes "a\"b") := by
  constructor
  · rfl
  · decide

/-- C2 (amended): every textual field is wrapped in double quotes and the
amount is emitted unquoted, but only the memo field has its inner double
quotes escaped by doubling; the other textual fields are emitted verbatim
between their quotes. The concrete memo scenario holds. -/
theorem csv_quoting_escapes_memo_only (e : Entry) :
    csvRow e =
      [quoteField (formatDateKo e.date),
       quoteField (if e.type = "income" then "수입" else "지출"),
       quoteField e.category,
       toString e.amount,
       quoteField (e.paymentMethod.getD ""),
       quoteField (escapeQuotes (e.memo.getD "")),
       quoteField (displayRecorder e.recordedBy)] ∧
    (csvRow ⟨"e2", ⟨2024, 3, 5⟩, "expense", 1000, "식비", none,
        some "He said \"hi\"", none⟩).get? 5 =
      some "\"He said \"\"hi\"\"\"" := by
  constructor
  · have h0 : escapeQuotes "" = "" := rfl
    cases hpm : e.paymentMethod <;> cases hm : e.memo <;>
      simp [csvRow, hpm, hm, Option.getD, h0]
  · rfl

/-- C8: the export row is built totally for entries with absent optional
fields — the payment-method column and the memo column are the quoted
empty string when the field is absent, and the row always has its seven
columns. -/
theorem csv_row_absent_optional_fields (e : Entry) :
    (csvRow e).length = 7 ∧
    (e.paymentMethod = none → (csvRow e).get? 4 = some (quoteField "")) ∧
    (e.memo = none → (csvRow e).get? 5 = some (quoteField "")) := by
  refine ⟨rfl, ?_, ?_⟩ <;> intro h <;> simp [csvRow, h]

/-- C5: for every entry collection and month, the per-category totals of
the category breakdown sum to totalExpense. -/
theorem summary_categoryBreakdown_sum_eq_totalExpense
    (entries : List Entry) (m : Int × Nat) :
    (((summary entries m).categoryExpenses).map Prod.snd).sum =
      (summary entries m).totalExpense := by
  have hperm : List.Perm ((summary entries m).categoryExpenses)
      ((summaryFold (filteredEntries entries m)).2.2) :=
    insertionSort_perm _ _
  have hsum := (hperm.map Prod.snd).sum_eq
  rw [hsum]
  show ((summaryFold (filteredEntries entries m)).2.2.map Prod.snd).sum =
    (summaryFold (filteredEntries entries m)).2.1
  rw [summaryFold, foldl_summaryStep_cats_sum, foldl_summaryStep_expense]
  simp

/-- C6: the category breakdown is sorted by total descending; equal
totals keep the relative order of the grouped association list, whose key
order is the first-encounter order of the categories of the non-income
entries of the filtered input. -/
theorem summary_categoryBreakdown_sorted_stable (entries : List Entry) (m : Int × Nat) :
    ((summary entries m).categoryExpenses).Pairwise (fun p q => q.2 ≤ p.2) ∧
    (∀ t : Int, ((summary entries m).categoryExpenses).filter (fun p => decide (p.2 = t)) =
      ((summaryFold (filteredEntries entries m)).2.2).filter (fun p => decide (p.2 = t))) ∧
    ((summaryFold (filteredEntries entries m)).2.2).map Prod.fst =
      firstEncounter (((filteredEntries entries m).filter
        (fun e => !(decide (e.type = "income")))).map Entry.category) := by
  refine ⟨?_, ?_, ?_⟩
  · have h := pairwise_insertionSort (fun p q : String × Int => decide (q.2 ≤ p.2))
      (fun a b c h1 h2 => by
        simp only [decide_eq_true_eq] at h1 h2 ⊢
        exact le_trans h2 h1)
      (fun a b => by
        simp only [decide_eq_true_eq]
        exact le_total b.2 a.2)
      ((summaryFold (filteredEntries entries m)).2.2)
    exact h.imp (fun hab => by simpa using hab)
  · intro t
    exact filter_insertionSort (fun p q : String × Int => decide (q.2 ≤ p.2))
      (fun p => decide (p.2 = t))
      (fun x y hx hy => by
        simp only [decide_eq_true_eq] at hx hy ⊢
        omega)
      ((summaryFold (filteredEntries entries m)).2.2)
  · rw [summaryFold, foldl_summaryStep_map_fst]
    simp [firstEncounter]

/-- C3: the query result is exactly the entries satisfying the
conjunction of the present filter fields (absent fields constrain
nothing), and an entry without a paymentMethod — an income entry — is
excluded by any non-empty paymentMethod filter. -/
theorem query_filter_conjunction (entries : List Entry) (f : Filter) :
    List.Perm (filteredAndSortedEntries entries f) (entries.filter (matchesFilter f)) ∧
    (∀ e, matchesFilter f e = true ↔
      ((∀ m, f.month = some m → monthKey e.date = m) ∧
       (∀ t, f.type = some t → e.type = t) ∧
       (∀ c, f.category = some c → e.category = c) ∧
       (∀ pm, f.paymentMethod = some pm → e.paymentMethod = some pm))) ∧
    (∀ e pm, f.paymentMethod = some pm → e.paymentMethod = none →
      e ∉ filteredAndSortedEntries entries f) := by
  have hperm : List.Perm (filteredAndSortedEntries entries f)
      (entries.filter (matchesFilter f)) := insertionSort_perm _ _
  have hiff : ∀ e, matchesFilter f e = true ↔
      ((∀ m, f.month = some m → monthKey e.date = m) ∧
       (∀ t, f.type = some t → e.type = t) ∧
       (∀ c, f.category = some c → e.category = c) ∧
       (∀ pm, f.paymentMethod = some pm → e.paymentMethod = some pm)) := by
    intro e
    obtain ⟨fm, ft, fc, fpm⟩ := f
    cases fm <;> cases ft <;> cases fc <;> cases fpm <;>
      simp [matchesFilter, and_assoc]
  refine ⟨hperm, hiff, ?_⟩
  intro e pm hpm hnone hmem
  have hmatch : matchesFilter f e = true :=
    (List.mem_filter.mp (hperm.mem_iff.mp hmem)).2
  rcases (hiff e).mp hmatch with ⟨-, -, -, h4⟩
  have hcontra := h4 pm hpm
  rw [hnone] at hcontra
  exact Option.noConfusion hcontra

/-- Witness for C3: a concrete income entry (no paymentMethod field) is
excluded by a concrete non-empty paymentMethod filter. -/
theorem query_filter_conjunction_witness :
    (⟨"i1", ⟨2024, 3, 10⟩, "income", 500000, "급여", none, none, none⟩ : Entry) ∉
      filteredAndSortedEntries
        [⟨"i1", ⟨2024, 3, 10⟩, "income", 500000, "급여", none, none, none⟩]
        ⟨none, none, none, some "현금"⟩ :=
  (query_filter_conjunction
      [⟨"i1", ⟨2024, 3, 10⟩, "income", 500000, "급여", none, none, none⟩]
      ⟨none, none, none, some "현금"⟩).2.2
    ⟨"i1", ⟨2024, 3, 10⟩, "income", 500000, "급여", none, none, none⟩
    "현금" rfl rfl

/-- C7: the query result is ordered by date descending, and entries with
equal dates appear in the order the input collection (filtered, which
preserves input order) lists them. -/
theorem query_sorted_date_desc_stable (entries : List Entry) (f : Filter) :
    (filteredAndSortedEntries entries f).Pairwise
      (fun a b => Date.le b.date a.date = true) ∧
    (∀ d : Date, (filteredAndSortedEntries entries f).filter (fun e => decide (e.date = d)) =
      (entries.filter (matchesFilter f)).filter (fun e => decide (e.date = d))) := by
  constructor
  · exact pairwise_insertionSort (fun a b : Entry => Date.le b.date a.date)
      (fun a b c h1 h2 => Date.le_trans h2 h1)
      (fun a b => (Date.le_total a.date b.date).symm)
      (entries.filter (matchesFilter f))
  · intro d
    exact filter_insertionSort (fun a b : Entry => Date.le b.date a.date)
      (fun e => decide (e.date = d))
      (fun x y hx hy => by
        simp only [decide_eq_true_eq] at hx hy
        show Date.le y.date x.date = true
        rw [hx, hy]
        exact Date.le_refl d)
      (entries.filter (matchesFilter f))

/-- C10: only entries typed exactly "income" count as income; an entry of
any other type — "expense" or otherwise — is counted by the summary into
totalExpense and into the total of its category, and by the trend into
the expense of its month bucket. -/
theorem nonincome_counted_as_expense (entries : List Entry) (m : Int × Nat)
    (n : Nat) (anchor : Int × Nat) :
    (summary entries m).totalIncome = incomeSum (filteredEntries entries m) ∧
    (summary entries m).totalExpense = expenseSum (filteredEntries entries m) ∧
    (∀ c, catSum ((summary entries m).categoryExpenses) c =
      catExpenseSum (filteredEntries entries m) c) ∧
    (∀ k b, (k, b) ∈ trendData entries n anchor →
      b.income = incomeSum (entries.filter (fun e => decide (monthKey e.date = k))) ∧
      b.expense = expenseSum (entries.filter (fun e => decide (monthKey e.date = k)))) := by
  refine ⟨?_, ?_, ?_, ?_⟩
  · show (summaryFold (filteredEntries entries m)).1 = _
    rw [summaryFold, foldl_summaryStep_income]
    simp
  · show (summaryFold (filteredEntries entries m)).2.1 = _
    rw [summaryFold, foldl_summaryStep_expense]
    simp
  · intro c
    have hperm : List.Perm ((summary entries m).categoryExpenses)
        ((summaryFold (filteredEntries entries m)).2.2) := insertionSort_perm _ _
    have h1 : catSum ((summary entries m).categoryExpenses) c =
        catSum ((summaryFold (filteredEntries entries m)).2.2) c :=
      ((hperm.filter _).map Prod.snd).sum_eq
    rw [h1, summaryFold, foldl_summaryStep_catSum]
    simp [catSum]
  · intro k b hmem
    have hperm := insertionSort_perm
      (fun p q : (Int × Nat) × TrendBucket => decide (p.2.month ≤ q.2.month))
      (entries.foldl trendUpdate (initTrend anchor n))
    have hmem2 : (k, b) ∈ entries.foldl trendUpdate (initTrend anchor n) :=
      hperm.mem_iff.mp hmem
    rw [foldl_trendUpdate_eq] at hmem2
    rcases List.mem_map.mp hmem2 with ⟨p, hp, heq⟩
    obtain ⟨k0, b0⟩ := p
    simp only [Prod.mk.injEq] at heq
    obtain ⟨hk, hb⟩ := heq
    subst hk
    subst hb
    rcases mem_initTrend hp with ⟨hi0, he0⟩
    rcases foldl_applyEntry_totals
      (entries.filter (fun e => decide (monthKey e.date = k0))) b0 with ⟨ht1, ht2⟩
    rw [ht1, ht2, hi0, he0]
    constructor <;> ring

/-- Witness for C10: a concrete entry typed "transfer" (neither "income"
nor "expense") lands in the expense of its trend bucket. -/
theorem nonincome_counted_as_expense_witness :
    ((⟨0, 700, 3⟩ : TrendBucket).income =
      incomeSum ([⟨"t1", ⟨2024, 3, 5⟩, "transfer", 700, "기타", none, none, none⟩].filter
        (fun e => decide (monthKey e.date = ((2024 : Int), 3))))) ∧
    ((⟨0, 700, 3⟩ : TrendBucket).expense =
      expenseSum ([⟨"t1", ⟨2024, 3, 5⟩, "transfer", 700, "기타", none, none, none⟩].filter
        (fun e => decide (monthKey e.date = ((2024 : Int), 3))))) :=
  (nonincome_counted_as_expense
      [⟨"t1", ⟨2024, 3, 5⟩, "transfer", 700, "기타", none, none, none⟩]
      ((2024 : Int), 3) 1 ((2024 : Int), 3)).2.2.2
    ((2024 : Int), 3) ⟨0, 700, 3⟩ (by decide)

/-- Witness for C8 at a concrete entry with both optional fields absent. -/
theorem csv_row_absent_optional_fields_witness :
    ((csvRow ⟨"w8", ⟨2024, 3, 5⟩, "expense", 1000, "식비", none, none, none⟩).get? 4 =
      some (quoteField "")) ∧
    ((csvRow ⟨"w8", ⟨2024, 3, 5⟩, "expense", 1000, "식비", none, none, none⟩).get? 5 =
      some (quoteField "")) :=
  ⟨(csv_row_absent_optional_fields
      ⟨"w8", ⟨2024, 3, 5⟩, "expense", 1000, "식비", none, none, none⟩).2.1 rfl,
   (csv_row_absent_optional_fields
      ⟨"w8", ⟨2024, 3, 5⟩, "expense", 1000, "식비", none, none, none⟩).2.2 rfl⟩

end Household
